import Mathlib

/-!
Verification of the RPC resilience layer of the `basepy` client
(`src/basepy/client.py`): Metrics, TTL Cache, token-bucket RateLimiter,
per-endpoint CircuitBreaker, the `retry_with_backoff` decorator, and the
orchestration methods `BaseClient._connect`, `_rotate_rpc`, `_cached_call`
and `_rpc_call`.

Conventions of the embedding:
- `time.time()` values are modelled as rationals supplied explicitly to each
  operation (the ambient clock is an input).
- Python dictionaries keyed by endpoint URL become total functions
  `String → _` (for `defaultdict`) or `String → Option _` (for plain dicts,
  where `none` models a missing key).
- A raised exception is modelled by an explicit error value; the exception
  taxonomy of the repository becomes the inductive `ErrKind`.
- The two cache dictionaries `_cache` and `_timestamps` are always updated in
  lockstep by `set`/eviction, so they are modelled as one map to pairs.
- The md5 hashing in `Cache.make_key` is abstracted away: keys are opaque
  strings, and all statements quantify over the key.
-/

/-- Error taxonomy of the repository (`basepy.exceptions` plus the
remote-rejection errors raised by the transport, e.g. execution reverted or
insufficient funds). -/
inductive ErrKind where
  | connectionError
  | rpcError
  | rateLimitError
  | circuitBreakerOpenErr
  | validationError
  | remoteRejected
deriving DecidableEq

/-- The `except (ConnectionError, RPCError)` clause of `retry_with_backoff`:
exactly these two kinds are caught and retried. -/
def retryableErr : ErrKind → Bool
  | .connectionError => true
  | .rpcError => true
  | _ => false

/-- The counters of `Metrics` touched by the modelled code paths
(`record_cache_hit`, `record_cache_miss`, `record_circuit_breaker_trip`). -/
structure Metrics where
  cacheHits : ℕ
  cacheMisses : ℕ
  circuitBreakerTrips : ℕ
deriving DecidableEq

/-- `Metrics.reset` / freshly constructed metrics: all counters zero. -/
def Metrics.init : Metrics := ⟨0, 0, 0⟩

/-- `Metrics.record_cache_hit`. -/
def Metrics.recordCacheHit (m : Metrics) : Metrics :=
  { m with cacheHits := m.cacheHits + 1 }

/-- `Metrics.record_cache_miss`. -/
def Metrics.recordCacheMiss (m : Metrics) : Metrics :=
  { m with cacheMisses := m.cacheMisses + 1 }

/-- `Metrics.record_circuit_breaker_trip`. -/
def Metrics.recordCircuitBreakerTrip (m : Metrics) : Metrics :=
  { m with circuitBreakerTrips := m.circuitBreakerTrips + 1 }

/-- The three values of the per-endpoint state string in `CircuitBreaker`
(`closed`, `open`, `half-open`). -/
inductive BreakerState where
  | closed
  | opened
  | halfOpen
deriving DecidableEq

/-- `CircuitBreaker.__init__`: `failure_count` is a `defaultdict(int)`
(total, default 0), `last_failure_time` a plain dict (`Option`),
`state` a `defaultdict` with default `closed`. -/
structure CircuitBreaker where
  threshold : ℕ
  timeout : ℚ
  failureCount : String → ℕ
  lastFailureTime : String → Option ℚ
  state : String → BreakerState

/-- A freshly constructed `CircuitBreaker(threshold, timeout)`. -/
def CircuitBreaker.init (threshold : ℕ) (timeout : ℚ) : CircuitBreaker :=
  ⟨threshold, timeout, fun _ => 0, fun _ => none, fun _ => .closed⟩

/-- Result of `CircuitBreaker.call`: `rejected` models the
`CircuitBreakerOpenError` raised without invoking `func`; `keyError` models a
`KeyError` from `self.last_failure_time[rpc_url]`; `ok` returns the result of
`func`; `err` models the re-raised exception of a failed `func`. -/
inductive CBOutcome (α : Type) where
  | rejected : CBOutcome α
  | keyError : CBOutcome α
  | ok : α → CBOutcome α
  | err : CBOutcome α
deriving DecidableEq

/-- The body of `CircuitBreaker.call` after the open-state gate: `func` is
invoked (its behaviour supplied as `out`), then the success or failure
bookkeeping runs. -/
def CircuitBreaker.invoke {α : Type} (cb : CircuitBreaker) (url : String)
    (now : ℚ) (out : Except Unit α) : CBOutcome α × CircuitBreaker :=
  match out with
  | .ok a =>
      -- success: half-open transitions to closed, failure count resets to 0
      let cb1 := if cb.state url = .halfOpen then
                   { cb with state := Function.update cb.state url .closed }
                 else cb
      (.ok a, { cb1 with failureCount := Function.update cb1.failureCount url 0 })
  | .error _ =>
      -- failure: increment count, record failure time, trip when threshold reached
      let fc := cb.failureCount url + 1
      let cb1 := { cb with
                     failureCount := Function.update cb.failureCount url fc,
                     lastFailureTime := Function.update cb.lastFailureTime url (some now) }
      let cb2 := if cb.threshold ≤ fc then
                   { cb1 with state := Function.update cb1.state url .opened }
                 else cb1
      (.err, cb2)

/-- `CircuitBreaker.call(rpc_url, func)`: when the per-endpoint state is
`open`, the elapsed time since the recorded last failure is compared with the
timeout; strictly more than `timeout` elapsed admits the call as a half-open
trial, otherwise a `CircuitBreakerOpenError` is raised without invoking
`func`. -/
def CircuitBreaker.call {α : Type} (cb : CircuitBreaker) (url : String)
    (now : ℚ) (out : Except Unit α) : CBOutcome α × CircuitBreaker :=
  if cb.state url = .opened then
    match cb.lastFailureTime url with
    | none => (.keyError, cb)
    | some t =>
        if cb.timeout < now - t then
          CircuitBreaker.invoke
            { cb with state := Function.update cb.state url .halfOpen } url now out
        else (.rejected, cb)
  else CircuitBreaker.invoke cb url now out

/-- One observed call against the breaker: the endpoint, the clock value, and
whether the wrapped function would succeed or raise. -/
structure CBEvent where
  url : String
  now : ℚ
  out : Except Unit Unit

/-- A sequence of calls through the breaker (state after each call is kept,
results discarded); used to describe the reachable breaker states. -/
def CircuitBreaker.run (cb : CircuitBreaker) (evs : List CBEvent) : CircuitBreaker :=
  evs.foldl (fun c e => (c.call e.url e.now e.out).2) cb

/-- `Cache.__init__`: ttl plus the `_cache`/`_timestamps` pair, modelled as a
single map to (value, storedAt) pairs since the two dicts are always updated
together. -/
structure Cache (α : Type) where
  ttl : ℚ
  entries : String → Option (α × ℚ)

/-- `Cache.get`: a hit iff the key is present and `now - storedAt < ttl`;
an expired entry is deleted on this read; returns the (possibly updated)
cache as well. -/
def Cache.get {α : Type} (c : Cache α) (key : String) (now : ℚ) :
    Option α × Cache α :=
  match c.entries key with
  | some (v, ts) =>
      if now - ts < c.ttl then (some v, c)
      else (none, { c with entries := Function.update c.entries key none })
  | none => (none, c)

/-- `Cache.set`: store with `storedAt = now`, overwriting any prior entry. -/
def Cache.set {α : Type} (c : Cache α) (key : String) (v : α) (now : ℚ) :
    Cache α :=
  { c with entries := Function.update c.entries key (some (v, now)) }

/-- `RateLimiter.__init__(requests, window)`: `tokens` starts at `requests`,
`last_update` at construction time. -/
structure RateLimiter where
  requests : ℕ
  window : ℕ
  tokens : ℚ
  lastUpdate : ℚ

/-- The refill expression of `RateLimiter.acquire`:
`min(requests, tokens + (elapsed / window) * requests)`. -/
def RateLimiter.refill (rl : RateLimiter) (elapsed : ℚ) : ℚ :=
  min (rl.requests : ℚ) (rl.tokens + elapsed / (rl.window : ℚ) * (rl.requests : ℚ))

/-- `RateLimiter.acquire`: refill from elapsed time, advance `last_update`,
then grant a token iff at least one is available (`False` models the raised
`RateLimitError`). -/
def RateLimiter.acquire (rl : RateLimiter) (now : ℚ) : Bool × RateLimiter :=
  let t := rl.refill (now - rl.lastUpdate)
  if 1 ≤ t then (true, { rl with tokens := t - 1, lastUpdate := now })
  else (false, { rl with tokens := t, lastUpdate := now })

/-- A freshly constructed limiter at clock value `now`. -/
def RateLimiter.init (requests window : ℕ) (now : ℚ) : RateLimiter :=
  ⟨requests, window, (requests : ℚ), now⟩

/-- A sequence of `acquire` calls at the given clock values; returns the
final limiter state and the number of successful acquisitions. -/
def RateLimiter.run : RateLimiter → List ℚ → RateLimiter × ℕ
  | rl, [] => (rl, 0)
  | rl, t :: ts =>
      let p := rl.acquire t
      let q := RateLimiter.run p.2 ts
      (q.1, (if p.1 then 1 else 0) + q.2)

/-- Observable trace of one run of the `retry_with_backoff` wrapper: the final
state threaded through the attempts, the returned value or raised error
(`Except.error none` models the `raise last_exception` with
`last_exception = None`), the number of attempts actually made, and the list
of backoff sleeps in order. -/
structure RetryRun (σ α : Type) where
  final : σ
  result : Except (Option ErrKind) α
  attempts : ℕ
  sleeps : List ℚ

/-- The loop `for attempt in range(max_retries)` of `retry_with_backoff`,
with `remaining` attempts left and `i` the zero-based index of the next
attempt: a success returns immediately; a retryable error is remembered and,
unless this was the last attempt, followed by a sleep of
`backoff_factor ** attempt`; a non-retryable error is not caught and
propagates at once; when the loop ends, `last_exception` is raised. -/
def retryAux {σ α : Type} (backoffFactor : ℚ) (attempt : σ → σ × Except ErrKind α) :
    ℕ → ℕ → σ → Option ErrKind → List ℚ → RetryRun σ α
  | 0, i, s, last, sl => ⟨s, .error last, i, sl⟩
  | remaining + 1, i, s, _last, sl =>
      match attempt s with
      | (s1, .ok a) => ⟨s1, .ok a, i + 1, sl⟩
      | (s1, .error e) =>
          if retryableErr e then
            if 0 < remaining then
              retryAux backoffFactor attempt remaining (i + 1) s1 (some e)
                (sl ++ [backoffFactor ^ i])
            else
              retryAux backoffFactor attempt remaining (i + 1) s1 (some e) sl
          else ⟨s1, .error (some e), i + 1, sl⟩

/-- `retry_with_backoff(max_retries, backoff_factor)` applied to a stateful
attempt function. -/
def retryWithBackoff {σ α : Type} (maxRetries : ℕ) (backoffFactor : ℚ)
    (attempt : σ → σ × Except ErrKind α) (s : σ) : RetryRun σ α :=
  retryAux backoffFactor attempt maxRetries 0 s none []

example : (retryWithBackoff 3 2
    (fun (_ : Unit) =>
      ((), (Except.error ErrKind.connectionError : Except ErrKind Unit))) ()).attempts = 3 := rfl

/-- Values of the `Config` class used by the orchestration code. -/
def Config.MAX_RETRIES : ℕ := 3

/-- `Config.RETRY_BACKOFF_FACTOR`. -/
def Config.RETRY_BACKOFF_FACTOR : ℚ := 2

/-- `Config.RATE_LIMIT_REQUESTS`. -/
def Config.RATE_LIMIT_REQUESTS : ℕ := 100

/-- `Config.RATE_LIMIT_WINDOW`. -/
def Config.RATE_LIMIT_WINDOW : ℕ := 60

/-- `Config.CIRCUIT_BREAKER_THRESHOLD`. -/
def Config.CIRCUIT_BREAKER_THRESHOLD : ℕ := 5

/-- `Config.CIRCUIT_BREAKER_TIMEOUT`. -/
def Config.CIRCUIT_BREAKER_TIMEOUT : ℚ := 60

/-- The mutable fields of `BaseClient` used by `_connect`, `_rotate_rpc` and
`_rpc_call`. The `funcCalls` and `rotateCalls` fields are ghost
instrumentation (not in the source): they count, respectively, how many times
the underlying operation `func` was invoked inside `_rpc_call` and how many
times `_rotate_rpc` was entered, so that invocation and rotation become
observable in theorem statements. -/
structure RpcClientState where
  rpcUrls : List String
  currentRpcIndex : ℕ
  connectionAttempts : ℕ
  breaker : CircuitBreaker
  limiter : RateLimiter
  metrics : Metrics
  funcCalls : ℕ
  rotateCalls : ℕ

/-- The `for idx, url in enumerate(self.rpc_urls, 1)` loop of
`BaseClient._connect` (indices here zero-based, matching the stored
`current_rpc_index = idx - 1`): each candidate is probed through the circuit
breaker (`test_connection` raises `ConnectionError` iff the endpoint is not
reachable); every failure — breaker rejection, probe failure, or any other
exception — is caught and the loop continues; the first verified connection
sets the active index and returns; an exhausted loop models the raised
`ConnectionError`. -/
def connectLoop (reachable : String → Bool) (now : ℚ) :
    List (ℕ × String) → RpcClientState → RpcClientState × Bool
  | [], st => (st, false)
  | (idx, url) :: rest, st =>
      let testOut : Except Unit Unit := if reachable url then .ok () else .error ()
      let p := st.breaker.call url now testOut
      let st1 := { st with breaker := p.2 }
      match p.1 with
      | .ok _ => ({ st1 with currentRpcIndex := idx }, true)
      | _ => connectLoop reachable now rest st1

/-- `BaseClient._connect`: scan all configured endpoints from the head of the
list; `false` models the final `raise ConnectionError`. -/
def connect (reachable : String → Bool) (now : ℚ) (st : RpcClientState) :
    RpcClientState × Bool :=
  connectLoop reachable now st.rpcUrls.enum st

/-- `BaseClient._rotate_rpc`: advance `current_rpc_index` by one modulo the
list length, then re-run `_connect` (which scans from the head of the list);
a `ConnectionError` from `_connect` propagates (`false`). -/
def rotateRpc (reachable : String → Bool) (now : ℚ) (st : RpcClientState) :
    RpcClientState × Bool :=
  let st1 := { st with
                 currentRpcIndex := (st.currentRpcIndex + 1) % st.rpcUrls.length,
                 rotateCalls := st.rotateCalls + 1 }
  connect reachable now st1

/-- One undecorated execution of the body of `BaseClient._rpc_call`:
`rate_limiter.acquire()` first (a denial raises `RateLimitError`, uncaught);
then `func` is invoked directly — not through the circuit breaker; any
exception from `func` is caught, `_rotate_rpc` is attempted once
`connection_attempts ≥ 2` (its `ConnectionError` swallowed, success resetting
the counter), the counter is incremented, and an `RPCError` wrapping the
original exception is raised. `funcOut i` gives the behaviour of the i-th
invocation of `func` (indexed by the ghost `funcCalls` counter). -/
def rpcCallAttempt {α : Type} (reachable : String → Bool) (now : ℚ)
    (funcOut : ℕ → Except ErrKind α) (st : RpcClientState) :
    RpcClientState × Except ErrKind α :=
  let p := st.limiter.acquire now
  let st1 := { st with limiter := p.2 }
  if p.1 then
    let st2 := { st1 with funcCalls := st1.funcCalls + 1 }
    match funcOut st.funcCalls with
    | .ok a => (st2, .ok a)
    | .error _ =>
        let st3 :=
          if 2 ≤ st2.connectionAttempts then
            let q := rotateRpc reachable now st2
            if q.2 then { q.1 with connectionAttempts := 0 } else q.1
          else st2
        ({ st3 with connectionAttempts := st3.connectionAttempts + 1 },
         .error .rpcError)
  else (st1, .error .rateLimitError)

/-- `BaseClient._rpc_call` with its `@retry_with_backoff` decoration, for
arbitrary retry parameters; `clock i` is the ambient time during the attempt
whose ghost invocation counter reads `i`. -/
def rpcCallWith {α : Type} (maxRetries : ℕ) (backoffFactor : ℚ)
    (reachable : String → Bool) (clock : ℕ → ℚ)
    (funcOut : ℕ → Except ErrKind α) (st : RpcClientState) :
    RetryRun RpcClientState α :=
  retryWithBackoff maxRetries backoffFactor
    (fun s => rpcCallAttempt reachable (clock s.funcCalls) funcOut s) st

/-- `BaseClient._rpc_call` at the configured decorator arguments
(`max_retries=Config.MAX_RETRIES`, `backoff_factor=Config.RETRY_BACKOFF_FACTOR`). -/
def rpcCall {α : Type} (reachable : String → Bool) (clock : ℕ → ℚ)
    (funcOut : ℕ → Except ErrKind α) (st : RpcClientState) :
    RetryRun RpcClientState α :=
  rpcCallWith Config.MAX_RETRIES Config.RETRY_BACKOFF_FACTOR reachable clock funcOut st

/-- Observable outcome of `BaseClient._cached_call`: the returned Python
value (`none` models `None`), whether `func` was executed, and the resulting
cache and metrics. -/
structure CachedCallResult (β : Type) where
  value : Option β
  invoked : Bool
  cache : Cache (Option β)
  metrics : Metrics

/-- `BaseClient._cached_call`: values are Python objects that may be `None`
(type `Option β`); `Cache.get` hands back the stored object or `None`, so a
stored `None` and an absent key are indistinguishable (`Option.join`);
the `if cached_value is not None` test decides hit versus miss; on a miss the
freshly computed result — even `None` — is stored. `useCache` models
`self.cache and use_cache`. -/
def cachedCall {β : Type} (c : Cache (Option β)) (m : Metrics) (key : String)
    (funcResult : Option β) (now : ℚ) (useCache : Bool) : CachedCallResult β :=
  if useCache then
    let g := c.get key now
    let cachedValue : Option β := g.1.join
    match cachedValue with
    | some v => ⟨some v, false, g.2, m.recordCacheHit⟩
    | none =>
        ⟨funcResult, true, (g.2.set key funcResult now), m.recordCacheMiss⟩
  else ⟨funcResult, true, c, m⟩

/-- Breaker invariant: an endpoint in the `open` state always has a recorded
last failure time. -/
def CBInv (cb : CircuitBreaker) : Prop :=
  ∀ u, cb.state u = .opened → (cb.lastFailureTime u).isSome

lemma cbInv_init (thr : ℕ) (tmo : ℚ) : CBInv (CircuitBreaker.init thr tmo) := by
  intro u h
  simp [CircuitBreaker.init] at h

lemma cbInv_invoke {α : Type} (cb : CircuitBreaker) (url : String) (now : ℚ)
    (out : Except Unit α) (h : CBInv cb) : CBInv (cb.invoke url now out).2 := by
  intro u hu
  cases out with
  | ok a =>
      by_cases hc : cb.state url = .halfOpen
      · simp only [CircuitBreaker.invoke, hc, if_true] at hu ⊢
        by_cases huu : u = url
        · subst huu; simp [Function.update_same] at hu
        · rw [Function.update_noteq huu] at hu
          exact h u hu
      · simp only [CircuitBreaker.invoke, hc, if_false] at hu ⊢
        exact h u hu
  | error e =>
      by_cases hthr : cb.threshold ≤ cb.failureCount url + 1
      · simp only [CircuitBreaker.invoke, hthr, if_true] at hu ⊢
        by_cases huu : u = url
        · subst huu; simp [Function.update_same]
        · simp only [Function.update_noteq huu] at hu ⊢
          exact h u hu
      · simp only [CircuitBreaker.invoke, hthr, if_false] at hu ⊢
        by_cases huu : u = url
        · subst huu; simp [Function.update_same]
        · simp only [Function.update_noteq huu]
          exact h u hu

lemma cbInv_call {α : Type} (cb : CircuitBreaker) (url : String) (now : ℚ)
    (out : Except Unit α) (h : CBInv cb) : CBInv (cb.call url now out).2 := by
  unfold CircuitBreaker.call
  by_cases hs : cb.state url = .opened
  · simp only [hs, if_true]
    cases hl : cb.lastFailureTime url with
    | none => exact h
    | some t =>
        by_cases ht : cb.timeout < now - t
        · simp only [ht, if_true]
          refine cbInv_invoke _ url now out ?_
          intro u hu
          by_cases huu : u = url
          · subst huu; simp [Function.update_same] at hu
          · simp only [Function.update_noteq huu] at hu
            exact h u hu
        · simp only [ht, if_false]
          exact h
  · simp only [hs, if_false]
    exact cbInv_invoke cb url now out h

lemma cbInv_run (cb : CircuitBreaker) (evs : List CBEvent) (h : CBInv cb) :
    CBInv (cb.run evs) := by
  induction evs generalizing cb with
  | nil => exact h
  | cons e evs ih =>
      exact ih _ (cbInv_call cb e.url e.now e.out h)

lemma invoke_ne_keyError {α : Type} (cb : CircuitBreaker) (url : String)
    (now : ℚ) (out : Except Unit α) : (cb.invoke url now out).1 ≠ .keyError := by
  cases out <;> simp [CircuitBreaker.invoke]

lemma call_ne_keyError {α : Type} (cb : CircuitBreaker) (url : String)
    (now : ℚ) (out : Except Unit α) (h : CBInv cb) :
    (cb.call url now out).1 ≠ .keyError := by
  unfold CircuitBreaker.call
  by_cases hs : cb.state url = .opened
  · simp only [hs, if_true]
    cases hl : cb.lastFailureTime url with
    | none => exact absurd (h url hs) (by simp [hl])
    | some t =>
        by_cases ht : cb.timeout < now - t
        · simp only [ht, if_true]
          exact invoke_ne_keyError _ url now out
        · simp [ht]
  · simp only [hs, if_false]
    exact invoke_ne_keyError cb url now out

/-- C9. In every reachable state of the circuit breaker (any sequence of
calls from a freshly constructed breaker), an endpoint whose state is `open`
has an entry in `last_failure_time`; consequently the
`self.last_failure_time[rpc_url]` lookup performed when an open breaker is
consulted never raises a `KeyError`. -/
theorem spec_c9 (thr : ℕ) (tmo : ℚ) (evs : List CBEvent) (u : String)
    (now : ℚ) (out : Except Unit Unit) :
    (((CircuitBreaker.init thr tmo).run evs).state u = .opened →
      ((((CircuitBreaker.init thr tmo).run evs)).lastFailureTime u).isSome)
    ∧ (((CircuitBreaker.init thr tmo).run evs).call u now out).1 ≠ .keyError := by
  have h : CBInv ((CircuitBreaker.init thr tmo).run evs) :=
    cbInv_run _ evs (cbInv_init thr tmo)
  exact ⟨h u, call_ne_keyError _ u now out h⟩

/-- A sequence of `n` failing calls against one endpoint, the i-th at clock
value `ts i`. -/
def failEvents (url : String) (ts : ℕ → ℚ) (n : ℕ) : List CBEvent :=
  (List.range n).map (fun i => ⟨url, ts i, Except.error ()⟩)

lemma run_append (cb : CircuitBreaker) (l1 l2 : List CBEvent) :
    cb.run (l1 ++ l2) = (cb.run l1).run l2 := by
  simp [CircuitBreaker.run, List.foldl_append]

lemma failEvents_succ (url : String) (ts : ℕ → ℚ) (k : ℕ) :
    failEvents url ts (k + 1) =
      failEvents url ts k ++ [⟨url, ts k, Except.error ()⟩] := by
  simp [failEvents, List.range_succ]

lemma call_closed_fail (cb : CircuitBreaker) (url : String) (now : ℚ)
    (h : cb.state url = .closed) :
    (cb.call url now (Except.error () : Except Unit Unit)).2 =
      { cb with
          failureCount := Function.update cb.failureCount url (cb.failureCount url + 1),
          lastFailureTime := Function.update cb.lastFailureTime url (some now),
          state := if cb.threshold ≤ cb.failureCount url + 1
                   then Function.update cb.state url .opened else cb.state } := by
  have hs : ¬ cb.state url = .opened := by simp [h]
  unfold CircuitBreaker.call CircuitBreaker.invoke
  simp only [hs, if_false]
  split_ifs <;> rfl

lemma failRun (thr : ℕ) (tmo : ℚ) (url : String) (ts : ℕ → ℚ) :
    ∀ k, k ≤ thr →
      ((CircuitBreaker.init thr tmo).run (failEvents url ts k)).threshold = thr
      ∧ ((CircuitBreaker.init thr tmo).run (failEvents url ts k)).failureCount url = k
      ∧ (k < thr →
          ((CircuitBreaker.init thr tmo).run (failEvents url ts k)).state url = .closed)
      ∧ (k = thr → 1 ≤ thr →
          ((CircuitBreaker.init thr tmo).run (failEvents url ts k)).state url = .opened) := by
  intro k
  induction k with
  | zero =>
      intro _
      refine ⟨rfl, rfl, fun _ => rfl, fun h0 h1 => ?_⟩
      omega
  | succ k ih =>
      intro hk
      have hk' : k ≤ thr := Nat.le_of_succ_le hk
      have hklt : k < thr := hk
      obtain ⟨ihthr, ihfc, ihclosed, _⟩ := ih hk'
      have hstate : ((CircuitBreaker.init thr tmo).run (failEvents url ts k)).state url
          = .closed := ihclosed hklt
      have hone : ∀ (c : CircuitBreaker) (e : CBEvent),
          c.run [e] = (c.call e.url e.now e.out).2 := by
        intro c e; simp [CircuitBreaker.run]
      rw [failEvents_succ, run_append, hone]
      rw [call_closed_fail _ url (ts k) hstate]
      rw [ihthr, ihfc]
      refine ⟨rfl, Function.update_same url _ _, ?_, ?_⟩
      · intro hlt
        have : ¬ thr ≤ k + 1 := by omega
        simp only [this, if_false]
        exact hstate
      · intro heq _
        have : thr ≤ k + 1 := by omega
        simp only [this, if_true]
        exact Function.update_same url _ _

/-- C6. Breaker trip and reset: from a fresh breaker, after `k < threshold`
consecutive failing calls on an endpoint the breaker is still `closed` with
`failureCount = k`, and exactly `threshold` such failures put it in `open`;
while `open` and within `timeout` of the last failure every call returns the
breaker-open rejection with the breaker state untouched (the wrapped function
is not invoked); the first call strictly more than `timeout` after the last
failure is admitted (half-open trial — the wrapped function runs), and a
successful trial returns the breaker to `closed` with `failureCount = 0`. -/
theorem spec_c6 (thr : ℕ) (tmo : ℚ) (url : String) (ts : ℕ → ℚ) :
    (∀ k, k ≤ thr →
      ((CircuitBreaker.init thr tmo).run (failEvents url ts k)).failureCount url = k
      ∧ (k < thr →
          ((CircuitBreaker.init thr tmo).run (failEvents url ts k)).state url = .closed)
      ∧ (k = thr → 1 ≤ thr →
          ((CircuitBreaker.init thr tmo).run (failEvents url ts k)).state url = .opened))
    ∧ (∀ (α : Type) (cb : CircuitBreaker) (out : Except Unit α) (tl now : ℚ),
        cb.state url = .opened → cb.lastFailureTime url = some tl →
        now - tl ≤ cb.timeout → cb.call url now out = (.rejected, cb))
    ∧ (∀ (α : Type) (cb : CircuitBreaker) (a : α) (tl now : ℚ),
        cb.state url = .opened → cb.lastFailureTime url = some tl →
        cb.timeout < now - tl →
        (cb.call url now (Except.ok a)).1 = .ok a
        ∧ (cb.call url now (Except.ok a)).2.state url = .closed
        ∧ (cb.call url now (Except.ok a)).2.failureCount url = 0) := by
  refine ⟨?_, ?_, ?_⟩
  · intro k hk
    obtain ⟨_, h2, h3, h4⟩ := failRun thr tmo url ts k hk
    exact ⟨h2, h3, h4⟩
  · intro α cb out tl now hs hl hle
    have hnot : ¬ cb.timeout < now - tl := not_lt.mpr hle
    unfold CircuitBreaker.call
    simp [hs, hl, hnot]
  · intro α cb a tl now hs hl hgt
    unfold CircuitBreaker.call CircuitBreaker.invoke
    simp [hs, hl, hgt, Function.update_same]

/-- C6 witness: `threshold = 3`, `timeout = 60`; three failing calls at times
0, 1, 2 open the breaker; a breaker opened with last failure at time 2 rejects
a call at time 50 untouched, and admits a call at time 100 whose success
closes it with a zero failure count. -/
theorem spec_c6_witness :
    ((CircuitBreaker.init 3 60).run (failEvents "a" (fun i => (i : ℚ)) 3)).failureCount "a" = 3
    ∧ ((CircuitBreaker.init 3 60).run (failEvents "a" (fun i => (i : ℚ)) 3)).state "a"
        = .opened
    ∧ ((⟨3, 60, fun _ => 3, fun _ => some 2, fun _ => .opened⟩ :
          CircuitBreaker).call "a" 50 (Except.ok (7 : ℤ)))
        = (.rejected, ⟨3, 60, fun _ => 3, fun _ => some 2, fun _ => .opened⟩)
    ∧ ((⟨3, 60, fun _ => 3, fun _ => some 2, fun _ => .opened⟩ :
          CircuitBreaker).call "a" 100 (Except.ok (7 : ℤ))).1 = .ok 7
    ∧ ((⟨3, 60, fun _ => 3, fun _ => some 2, fun _ => .opened⟩ :
          CircuitBreaker).call "a" 100 (Except.ok (7 : ℤ))).2.state "a" = .closed
    ∧ ((⟨3, 60, fun _ => 3, fun _ => some 2, fun _ => .opened⟩ :
          CircuitBreaker).call "a" 100 (Except.ok (7 : ℤ))).2.failureCount "a" = 0 := by
  have h := spec_c6 3 60 "a" (fun i => (i : ℚ))
  have h1 := (h.1 3 le_rfl).1
  have h2 := (h.1 3 le_rfl).2.2 rfl (by norm_num)
  have h3 := h.2.1 ℤ ⟨3, 60, fun _ => 3, fun _ => some 2, fun _ => .opened⟩
    (Except.ok 7) 2 50 rfl rfl (by norm_num)
  have h4 := h.2.2 ℤ ⟨3, 60, fun _ => 3, fun _ => some 2, fun _ => .opened⟩
    7 2 100 rfl rfl (by norm_num)
  exact ⟨h1, h2, h3, h4.1, h4.2.1, h4.2.2⟩

lemma run_replicate_same (C W : ℕ) (t0 : ℚ) :
    ∀ (n : ℕ) (c : ℕ), c ≤ C →
      (RateLimiter.run ⟨C, W, (c : ℚ), t0⟩ (List.replicate n t0)).2 = min n c := by
  intro n
  induction n with
  | zero => intro c _; simp [RateLimiter.run]
  | succ n ih =>
      intro c hc
      have hr : RateLimiter.refill ⟨C, W, (c : ℚ), t0⟩ (t0 - t0) = (c : ℚ) := by
        simp only [RateLimiter.refill, sub_self, zero_div, zero_mul, add_zero]
        exact min_eq_right (by exact_mod_cast hc)
      by_cases h1 : 1 ≤ c
      · have h1q : (1 : ℚ) ≤ (c : ℚ) := by exact_mod_cast h1
        have hacq : RateLimiter.acquire ⟨C, W, (c : ℚ), t0⟩ t0
            = (true, ⟨C, W, ((c - 1 : ℕ) : ℚ), t0⟩) := by
          simp only [RateLimiter.acquire, hr, if_pos h1q]
          have : ((c : ℚ)) - 1 = ((c - 1 : ℕ) : ℚ) := by
            rw [Nat.cast_sub h1]; norm_num
          rw [this]
        rw [List.replicate_succ]
        simp only [RateLimiter.run, hacq]
        rw [ih (c - 1) (by omega)]
        simp only [if_true]
        omega
      · have hc0 : c = 0 := by omega
        subst hc0
        have hacq : RateLimiter.acquire ⟨C, W, ((0 : ℕ) : ℚ), t0⟩ t0
            = (false, ⟨C, W, ((0 : ℕ) : ℚ), t0⟩) := by
          simp only [RateLimiter.acquire, hr]
          norm_num
        rw [List.replicate_succ]
        simp only [RateLimiter.run, hacq]
        rw [ih 0 (by omega)]
        simp

lemma refill_nonneg (rl : RateLimiter) (e : ℚ) (h0 : 0 ≤ rl.tokens) (he : 0 ≤ e) :
    0 ≤ rl.refill e := by
  refine le_min (by positivity) ?_
  have : 0 ≤ e / (rl.window : ℚ) * (rl.requests : ℚ) := by positivity
  linarith

lemma refill_le (rl : RateLimiter) (e : ℚ) : rl.refill e ≤ (rl.requests : ℚ) :=
  min_le_left _ _

lemma run_inv (times : List ℚ) :
    ∀ (rl : RateLimiter), 0 ≤ rl.tokens → rl.tokens ≤ (rl.requests : ℚ) →
      List.Chain (· ≤ ·) rl.lastUpdate times →
      0 ≤ (RateLimiter.run rl times).1.tokens
      ∧ (RateLimiter.run rl times).1.tokens ≤ ((RateLimiter.run rl times).1.requests : ℚ)
      ∧ (RateLimiter.run rl times).1.requests = rl.requests := by
  induction times with
  | nil => intro rl h0 h1 _; exact ⟨h0, h1, rfl⟩
  | cons t ts ih =>
      intro rl h0 h1 hch
      rw [List.chain_cons] at hch
      obtain ⟨hle, hch'⟩ := hch
      have hre : 0 ≤ t - rl.lastUpdate := by linarith
      have hr0 : 0 ≤ rl.refill (t - rl.lastUpdate) := refill_nonneg rl _ h0 hre
      have hrle : rl.refill (t - rl.lastUpdate) ≤ (rl.requests : ℚ) := refill_le rl _
      simp only [RateLimiter.run, RateLimiter.acquire]
      by_cases hone : (1 : ℚ) ≤ rl.refill (t - rl.lastUpdate)
      · simp only [hone, if_true]
        have := ih ⟨rl.requests, rl.window, rl.refill (t - rl.lastUpdate) - 1, t⟩
          (by simpa using by linarith) (by simpa using by linarith) (by simpa using hch')
        simpa using this
      · simp only [hone, if_false]
        have := ih ⟨rl.requests, rl.window, rl.refill (t - rl.lastUpdate), t⟩
          (by simpa using hr0) (by simpa using hrle) (by simpa using hch')
        simpa using this

lemma refill_mono (rl : RateLimiter) (e1 e2 : ℚ) (h : e1 ≤ e2) :
    rl.refill e1 ≤ rl.refill e2 := by
  unfold RateLimiter.refill
  refine min_le_min le_rfl (add_le_add_left ?_ _)
  refine mul_le_mul_of_nonneg_right ?_ (by positivity)
  by_cases hW : (rl.window : ℚ) = 0
  · rw [hW, div_zero, div_zero]
  · have hWpos : (0 : ℚ) < (rl.window : ℚ) :=
      lt_of_le_of_ne (by positivity) (Ne.symm hW)
    exact (div_le_div_iff_of_pos_right hWpos).mpr h

/-- C7 counterexample. With capacity `C = 2` and window `W = 60`, starting
from a full bucket at time 0, the acquisitions at times 0, 0 and 30 all
succeed: three acquisitions succeed inside the window `[0, 60]` of length `W`
that starts with the bucket full, refuting the claim that no more than `C`
acquisitions can succeed within any such window (continuous refill hands back
one token after 30 s). -/
theorem spec_c7_counterexample :
    (RateLimiter.run ⟨2, 60, 2, 0⟩ [0, 0, 30]).2 = 3
    ∧ ¬ ((RateLimiter.run ⟨2, 60, 2, 0⟩ [0, 0, 30]).2 ≤ 2) := by
  have h : (RateLimiter.run ⟨2, 60, 2, 0⟩ [0, 0, 30]).2 = 3 := by
    norm_num [RateLimiter.run, RateLimiter.acquire, RateLimiter.refill]
  exact ⟨h, by omega⟩

/-- C7 amended. The token bucket admits more than `C` acquisitions in a
window of length `W` (see the counterexample); what holds is: (1) at a single
instant — with no elapsed time for refill — at most `C` acquisitions succeed
from a full bucket (exactly `min n C` of `n` attempts succeed); (2) in every
reachable state (any nondecreasing clock sequence) the token count stays
within `0 ≤ tokens ≤ capacity`; (3) the refill amount is monotone in elapsed
time. -/
theorem spec_c7_amended :
    (∀ (C W : ℕ) (t0 : ℚ) (n : ℕ),
      (RateLimiter.run (RateLimiter.init C W t0) (List.replicate n t0)).2 = min n C)
    ∧ (∀ (rl : RateLimiter) (times : List ℚ),
        0 ≤ rl.tokens → rl.tokens ≤ (rl.requests : ℚ) →
        List.Chain (· ≤ ·) rl.lastUpdate times →
        0 ≤ (RateLimiter.run rl times).1.tokens
        ∧ (RateLimiter.run rl times).1.tokens
            ≤ ((RateLimiter.run rl times).1.requests : ℚ)
        ∧ (RateLimiter.run rl times).1.requests = rl.requests)
    ∧ (∀ (rl : RateLimiter) (e1 e2 : ℚ), e1 ≤ e2 → rl.refill e1 ≤ rl.refill e2) := by
  refine ⟨?_, ?_, ?_⟩
  · intro C W t0 n
    exact run_replicate_same C W t0 n C le_rfl
  · intro rl times h0 h1 hch
    exact run_inv times rl h0 h1 hch
  · intro rl e1 e2 h
    exact refill_mono rl e1 e2 h

/-- C7 witness: with `C = 2`, `W = 60`, three same-instant acquisitions yield
`min 3 2 = 2` successes; the invariant holds along the concrete nondecreasing
trace `[0, 30]`; and refill at elapsed 1 is at most refill at elapsed 2. -/
theorem spec_c7_amended_witness :
    (RateLimiter.run (RateLimiter.init 2 60 5) (List.replicate 3 5)).2 = min 3 2
    ∧ (0 ≤ (RateLimiter.run ⟨2, 60, 2, 0⟩ [0, 30]).1.tokens
        ∧ (RateLimiter.run ⟨2, 60, 2, 0⟩ [0, 30]).1.tokens
            ≤ (((RateLimiter.run ⟨2, 60, 2, 0⟩ [0, 30]).1.requests : ℕ) : ℚ)
        ∧ (RateLimiter.run ⟨2, 60, 2, 0⟩ [0, 30]).1.requests
            = (⟨2, 60, 2, 0⟩ : RateLimiter).requests)
    ∧ (⟨2, 60, 2, 0⟩ : RateLimiter).refill 1 ≤ (⟨2, 60, 2, 0⟩ : RateLimiter).refill 2 :=
  ⟨spec_c7_amended.1 2 60 5 3,
   spec_c7_amended.2.1 ⟨2, 60, 2, 0⟩ [0, 30] (by norm_num) (by norm_num)
     (by norm_num [List.chain_cons]),
   spec_c7_amended.2.2 ⟨2, 60, 2, 0⟩ 1 2 (by norm_num)⟩

lemma retryAux_fail {σ α : Type} (b : ℚ) (attempt : σ → σ × Except ErrKind α)
    (e : ErrKind) (he : retryableErr e = true) (P : ℕ → σ → Prop)
    (hstep : ∀ r s, P (r + 1) s → (attempt s).2 = Except.error e ∧ P r (attempt s).1) :
    ∀ (r i : ℕ) (s : σ) (last : Option ErrKind) (sl : List ℚ), P r s →
      (retryAux b attempt r i s last sl).result
          = (if r = 0 then Except.error last else Except.error (some e))
      ∧ (retryAux b attempt r i s last sl).attempts = i + r
      ∧ (retryAux b attempt r i s last sl).sleeps
          = sl ++ (List.range (r - 1)).map (fun j => b ^ (i + j))
      ∧ P 0 (retryAux b attempt r i s last sl).final := by
  intro r
  induction r with
  | zero =>
      intro i s last sl hP
      exact ⟨by simp [retryAux], by simp [retryAux], by simp [retryAux],
        by simpa [retryAux] using hP⟩
  | succ r ih =>
      intro i s last sl hP
      obtain ⟨ha, hP'⟩ := hstep r s hP
      rcases hat : attempt s with ⟨s1, res⟩
      rw [hat] at ha hP'
      subst ha
      simp only at hP'
      by_cases hr : 0 < r
      · have hred : retryAux b attempt (r + 1) i s last sl
            = retryAux b attempt r (i + 1) s1 (some e) (sl ++ [b ^ i]) := by
          simp only [retryAux, hat, he, if_true, if_pos hr]
        obtain ⟨ih1, ih2, ih3, ih4⟩ := ih (i + 1) s1 (some e) (sl ++ [b ^ i]) hP'
        rw [hred]
        refine ⟨?_, ?_, ?_, ih4⟩
        · rw [ih1]
          have hne : ¬ (r + 1 = 0) := by omega
          simp only [hne, if_false]
          split <;> rfl
        · rw [ih2]; omega
        · rw [ih3]
          have : r + 1 - 1 = (r - 1) + 1 := by omega
          rw [this, List.range_succ_eq_map]
          simp only [List.map_cons, List.map_map, List.append_assoc,
            List.singleton_append, Nat.add_zero]
          have hfun : ((fun j => b ^ (i + j)) ∘ Nat.succ) = (fun j => b ^ (i + 1 + j)) := by
            funext j
            simp only [Function.comp, Nat.succ_eq_add_one]
            congr 1
            omega
          rw [hfun]
      · have hr0 : r = 0 := by omega
        subst hr0
        have hred : retryAux b attempt (0 + 1) i s last sl
            = retryAux b attempt 0 (i + 1) s1 (some e) sl := by
          simp only [retryAux, hat, he, if_true, if_neg (lt_irrefl 0)]
        rw [hred]
        exact ⟨by simp [retryAux], by simp [retryAux], by simp [retryAux],
          by simpa [retryAux] using hP'⟩

/-- C3 counterexample. `retry_with_backoff(max_retries=3)` attempts a
permanently failing retryable call exactly 3 times
(`for attempt in range(max_retries)`), not `max_retries + 1 = 4` times as the
claim states. -/
theorem spec_c3_counterexample :
    (retryWithBackoff 3 2 (fun (_ : Unit) =>
      ((), (Except.error ErrKind.connectionError : Except ErrKind Unit))) ()).attempts = 3
    ∧ (retryWithBackoff 3 2 (fun (_ : Unit) =>
      ((), (Except.error ErrKind.connectionError : Except ErrKind Unit))) ()).attempts
        ≠ 3 + 1 := by
  have h : (retryWithBackoff 3 2 (fun (_ : Unit) =>
      ((), (Except.error ErrKind.connectionError : Except ErrKind Unit))) ()).attempts
        = 3 := rfl
  exact ⟨h, by rw [h]; norm_num⟩

/-- C3 amended. A call whose underlying operation fails with a retryable
(transient transport) error on every attempt is attempted exactly
`maxRetries` times (not `maxRetries + 1`); a sleep of `backoffBase ^ i`
seconds separates attempt `i` from attempt `i + 1` (zero-indexed, so the
sleeps are `backoffBase ^ 0 … backoffBase ^ (maxRetries - 2)`), and after the
last attempt the final error is propagated unchanged. -/
theorem spec_c3_amended {σ α : Type} (maxRetries : ℕ) (b : ℚ)
    (attempt : σ → σ × Except ErrKind α) (e : ErrKind)
    (he : retryableErr e = true) (hfail : ∀ s, (attempt s).2 = Except.error e)
    (hmr : 1 ≤ maxRetries) (s : σ) :
    (retryWithBackoff maxRetries b attempt s).attempts = maxRetries
    ∧ (retryWithBackoff maxRetries b attempt s).result = Except.error (some e)
    ∧ (retryWithBackoff maxRetries b attempt s).sleeps
        = (List.range (maxRetries - 1)).map (fun i => b ^ i) := by
  obtain ⟨h1, h2, h3, _⟩ := retryAux_fail b attempt e he (fun _ _ => True)
    (fun r s _ => ⟨hfail s, trivial⟩) maxRetries 0 s none [] trivial
  have hne : ¬ (maxRetries = 0) := by omega
  refine ⟨?_, ?_, ?_⟩
  · simpa [retryWithBackoff] using h2
  · rw [retryWithBackoff, h1]
    simp [hne]
  · rw [retryWithBackoff, h3]
    simp

/-- C3 amended witness: `maxRetries = 3`, `backoffBase = 2`, a stateless
always-failing retryable attempt. -/
theorem spec_c3_amended_witness :
    (retryWithBackoff 3 2 (fun (_ : Unit) =>
      ((), (Except.error ErrKind.connectionError : Except ErrKind Unit))) ()).attempts = 3
    ∧ (retryWithBackoff 3 2 (fun (_ : Unit) =>
      ((), (Except.error ErrKind.connectionError : Except ErrKind Unit))) ()).result
        = Except.error (some ErrKind.connectionError)
    ∧ (retryWithBackoff 3 2 (fun (_ : Unit) =>
      ((), (Except.error ErrKind.connectionError : Except ErrKind Unit))) ()).sleeps
        = (List.range 2).map (fun i => (2 : ℚ) ^ i) :=
  spec_c3_amended 3 2 _ ErrKind.connectionError rfl (fun _ => rfl) (by norm_num) ()

/-- C8. TTL cache correctness: a `set` followed by a `get` strictly within
`ttl` returns the stored value; once `now - storedAt ≥ ttl` the `get` is a
miss and evicts the entry on that read; and any value returned by `get` comes
from an entry with `now - storedAt < ttl` — an expired entry is never
returned. -/
theorem spec_c8 {α : Type} (c : Cache α) (k : String) (v : α) (t1 t2 : ℚ) :
    (t2 - t1 < c.ttl → ((c.set k v t1).get k t2).1 = some v)
    ∧ (c.ttl ≤ t2 - t1 →
        ((c.set k v t1).get k t2).1 = none
        ∧ ((c.set k v t1).get k t2).2.entries k = none)
    ∧ (∀ (now : ℚ) (w : α), (c.get k now).1 = some w →
        ∃ ts, c.entries k = some (w, ts) ∧ now - ts < c.ttl) := by
  refine ⟨?_, ?_, ?_⟩
  · intro hfresh
    simp [Cache.get, Cache.set, Function.update_same, hfresh]
  · intro hexp
    have hnot : ¬ (t2 - t1 < c.ttl) := not_lt.mpr hexp
    constructor
    · simp [Cache.get, Cache.set, Function.update_same, hnot]
    · simp [Cache.get, Cache.set, Function.update_same, hnot]
  · intro now w hw
    cases hc : c.entries k with
    | none => simp [Cache.get, hc] at hw
    | some p =>
        obtain ⟨v0, ts⟩ := p
        by_cases hfresh : now - ts < c.ttl
        · simp only [Cache.get, hc, hfresh, if_true, Option.some.injEq] at hw
          exact ⟨ts, by simp [hc, hw], hfresh⟩
        · simp [Cache.get, hc, hfresh] at hw

/-- C8 witness: concrete cache with `ttl = 5`; a value stored at time 0 is a
hit at time 1, a miss (with eviction) at time 6; a fresh concrete entry is
returned together with its in-ttl timestamp. -/
theorem spec_c8_witness :
    (((Cache.set ⟨5, fun _ => none⟩ "k" (42 : ℤ) 0).get "k" 1).1 = some 42)
    ∧ (((Cache.set ⟨5, fun _ => none⟩ "k" (42 : ℤ) 0).get "k" 6).1 = none)
    ∧ (∃ ts, (⟨5, Function.update (fun _ => none) "k" (some ((42 : ℤ), 1))⟩ :
        Cache ℤ).entries "k" = some (42, ts) ∧ (3 : ℚ) - ts < 5) :=
  ⟨(spec_c8 ⟨5, fun _ => none⟩ "k" 42 0 1).1 (by norm_num),
   ((spec_c8 ⟨5, fun _ => none⟩ "k" 42 0 6).2.1 (by norm_num)).1,
   (spec_c8 ⟨5, Function.update (fun _ => none) "k" (some (42, 1))⟩ "k" 42 0 6).2.2 3 42
     (by simp [Cache.get, Function.update_same]; norm_num)⟩

/-- C10. When the underlying operation returns `None`, the cached-call path
never serves it from the cache: `Cache.get` hands back `None` both for an
absent key and for a stored `None`, the `if cached_value is not None` test
therefore takes the miss branch, a miss is recorded, and `func` is
re-executed — and the resulting cache again stores only `None` under the key,
so this repeats on every invocation even within `ttl`. -/
theorem spec_c10 {β : Type} (c : Cache (Option β)) (m : Metrics) (key : String)
    (now : ℚ) (h : ∀ p, c.entries key = some p → p.1 = none) :
    (c.get key now).1.join = none
    ∧ (cachedCall c m key none now true).invoked = true
    ∧ (cachedCall c m key none now true).value = none
    ∧ (cachedCall c m key none now true).metrics.cacheMisses = m.cacheMisses + 1
    ∧ (cachedCall c m key none now true).metrics.cacheHits = m.cacheHits
    ∧ (∀ p, (cachedCall c m key none now true).cache.entries key = some p →
        p.1 = none) := by
  have hj : (c.get key now).1.join = none := by
    cases hc : c.entries key with
    | none => simp [Cache.get, hc]
    | some p =>
        obtain ⟨v, ts⟩ := p
        have hv : v = none := h (v, ts) hc
        by_cases hfresh : now - ts < c.ttl
        · simp [Cache.get, hc, hfresh, hv]
        · simp [Cache.get, hc, hfresh]
  have hmiss : cachedCall c m key none now true =
      ⟨none, true, ((c.get key now).2.set key none now), m.recordCacheMiss⟩ := by
    simp only [cachedCall]
    rw [hj]
    simp
  refine ⟨hj, ?_, ?_, ?_, ?_, ?_⟩ <;>
    simp [hmiss, Cache.set, Metrics.recordCacheMiss, Function.update_same]

/-- C10 witness: an empty cache (no entry under the key) satisfies the
hypothesis, and the conclusions hold at concrete inputs. -/
theorem spec_c10_witness :
    ((⟨10, fun _ => none⟩ : Cache (Option ℤ)).get "k" 0).1.join = none
    ∧ (cachedCall (⟨10, fun _ => none⟩ : Cache (Option ℤ)) Metrics.init "k"
        none 0 true).invoked = true
    ∧ (cachedCall (⟨10, fun _ => none⟩ : Cache (Option ℤ)) Metrics.init "k"
        none 0 true).metrics.cacheMisses = Metrics.init.cacheMisses + 1 := by
  have h := spec_c10 (⟨10, fun _ => none⟩ : Cache (Option ℤ)) Metrics.init "k" 0
    (by intro p hp; simp at hp)
  exact ⟨h.1, h.2.1, h.2.2.2.1⟩

/-- Concrete client whose single endpoint is unreachable and whose breaker
has `threshold = 1`. -/
def c4Client : RpcClientState :=
  ⟨["a"], 0, 0, CircuitBreaker.init 1 60, RateLimiter.init 100 60 0,
   Metrics.init, 0, 0⟩

/-- C4. The code never invokes `Metrics.record_circuit_breaker_trip` — the
method and the `circuit_breaker_trips` counter it maintains are dead code —
so a closed-to-open transition of the breaker leaves the trip counter at 0:
with `threshold = 1`, one failing probe through the breaker (here via
`_connect` against an unreachable endpoint) opens the breaker while
`circuit_breaker_trips` stays 0, contradicting the claim that each trip
increments the counter by one. -/
theorem spec_c4_bug :
    (CircuitBreaker.init 1 60).state "a" = .closed
    ∧ (connect (fun _ => false) 0 c4Client).1.breaker.state "a" = .opened
    ∧ c4Client.metrics.circuitBreakerTrips = 0
    ∧ (connect (fun _ => false) 0 c4Client).1.metrics.circuitBreakerTrips = 0 := by
  refine ⟨rfl, ?_, rfl, ?_⟩ <;>
    simp [connect, connectLoop, c4Client, List.enum, List.enumFrom,
      CircuitBreaker.call, CircuitBreaker.invoke, CircuitBreaker.init,
      Function.update_same, RateLimiter.init, Metrics.init]

lemma call_error_not_ok (cb : CircuitBreaker) (url : String) (now : ℚ) (a : Unit) :
    (cb.call url now (Except.error () : Except Unit Unit)).1 ≠ CBOutcome.ok a := by
  unfold CircuitBreaker.call CircuitBreaker.invoke
  by_cases hs : cb.state url = .opened
  · simp only [hs, if_true]
    cases hl : cb.lastFailureTime url with
    | none => simp
    | some t =>
        by_cases ht : cb.timeout < now - t
        · simp [ht]
        · simp [ht]
  · simp [hs]

lemma connectLoop_preserves (reachable : String → Bool) (now : ℚ) :
    ∀ (l : List (ℕ × String)) (st : RpcClientState),
      (connectLoop reachable now l st).1.rpcUrls = st.rpcUrls
      ∧ (connectLoop reachable now l st).1.connectionAttempts = st.connectionAttempts
      ∧ (connectLoop reachable now l st).1.limiter = st.limiter
      ∧ (connectLoop reachable now l st).1.metrics = st.metrics
      ∧ (connectLoop reachable now l st).1.funcCalls = st.funcCalls
      ∧ (connectLoop reachable now l st).1.rotateCalls = st.rotateCalls := by
  intro l
  induction l with
  | nil => intro st; exact ⟨rfl, rfl, rfl, rfl, rfl, rfl⟩
  | cons p rest ih =>
      intro st
      obtain ⟨idx, url⟩ := p
      simp only [connectLoop]
      rcases hres : (st.breaker.call url now
          (if reachable url then Except.ok () else Except.error ())).1 with _ | _ | a | _
      · exact ih _
      · exact ih _
      · exact ⟨rfl, rfl, rfl, rfl, rfl, rfl⟩
      · exact ih _

lemma connectLoop_all_fail (reachable : String → Bool) (now : ℚ) :
    ∀ (l : List (ℕ × String)) (st : RpcClientState),
      (∀ p ∈ l, reachable p.2 = false) →
      (connectLoop reachable now l st).2 = false
      ∧ (connectLoop reachable now l st).1.currentRpcIndex = st.currentRpcIndex := by
  intro l
  induction l with
  | nil => intro st _; exact ⟨rfl, rfl⟩
  | cons p rest ih =>
      intro st hall
      obtain ⟨idx, url⟩ := p
      have hurl : reachable url = false := hall (idx, url) (by simp)
      have hrest : ∀ p ∈ rest, reachable p.2 = false :=
        fun p hp => hall p (List.mem_cons_of_mem _ hp)
      have htest : (if reachable url then Except.ok () else Except.error () :
          Except Unit Unit) = Except.error () := by simp [hurl]
      simp only [connectLoop, htest]
      rcases hres : (st.breaker.call url now (Except.error () : Except Unit Unit)).1
        with _ | _ | a | _
      · exact ih _ hrest
      · exact ih _ hrest
      · exact absurd hres (call_error_not_ok st.breaker url now a)
      · exact ih _ hrest

lemma snd_mem_enumFrom {p : ℕ × String} :
    ∀ (l : List String) (n : ℕ), p ∈ List.enumFrom n l → p.2 ∈ l := by
  intro l
  induction l with
  | nil => intro n h; simp [List.enumFrom] at h
  | cons a rest ih =>
      intro n h
      simp only [List.enumFrom, List.mem_cons] at h
      rcases h with h | h
      · subst h; simp
      · exact List.mem_cons_of_mem _ (ih (n + 1) h)

lemma call_closed_ok (cb : CircuitBreaker) (url : String) (now : ℚ)
    (h : cb.state url = .closed) :
    (cb.call url now (Except.ok () : Except Unit Unit)).1 = .ok () := by
  have hs : ¬ cb.state url = .opened := by simp [h]
  unfold CircuitBreaker.call CircuitBreaker.invoke
  simp [hs]

/-- Concrete two-endpoint client used for the rotation scenarios: active
index 0, fresh breaker, full limiter. -/
def c5Client : RpcClientState :=
  ⟨["a", "b"], 0, 0, CircuitBreaker.init 5 60, RateLimiter.init 100 60 0,
   Metrics.init, 0, 0⟩

/-- C5 counterexample. `_rotate_rpc` mutates `current_rpc_index` before any
connectivity check: with both endpoints unreachable the rotation fails
(`ConnectionError`) yet the active pointer has moved from 0 to 1, so the
pointer is not updated "only after the candidate endpoint is verified
connected"; moreover with the candidate `"b"` unreachable but `"a"`
reachable, the scan of `_connect` restarts from the head of the list and
settles on index 0 — not the advanced candidate — so the final pointer is
not the index advanced by one either. -/
theorem spec_c5_counterexample :
    ((rotateRpc (fun _ => false) 0 c5Client).2 = false
      ∧ (rotateRpc (fun _ => false) 0 c5Client).1.currentRpcIndex = 1)
    ∧ ((rotateRpc (fun u => u == "a") 0 c5Client).2 = true
      ∧ (rotateRpc (fun u => u == "a") 0 c5Client).1.currentRpcIndex = 0) := by
  constructor
  · constructor <;>
      simp [rotateRpc, connect, connectLoop, c5Client, List.enum, List.enumFrom,
        CircuitBreaker.call, CircuitBreaker.invoke, CircuitBreaker.init,
        Function.update_same, Function.update_noteq, RateLimiter.init, Metrics.init]
  · constructor <;>
      simp [rotateRpc, connect, connectLoop, c5Client, List.enum, List.enumFrom,
        CircuitBreaker.call, CircuitBreaker.invoke, CircuitBreaker.init,
        Function.update_same, Function.update_noteq, RateLimiter.init, Metrics.init]

/-- C5 amended. `_rotate_rpc` advances the active index by one modulo the
list length unconditionally — before any connectivity verification — and then
re-runs the `_connect` scan, which starts from the head of the endpoint list
and sets the pointer to the first endpoint that verifies connected (not
necessarily the advanced candidate); if no endpoint in the full cycle is
reachable, a connection-failure signal is raised and the pointer is left at
the advanced value. -/
theorem spec_c5_amended (reachable : String → Bool) (now : ℚ) (st : RpcClientState) :
    rotateRpc reachable now st
      = connect reachable now { st with
          currentRpcIndex := (st.currentRpcIndex + 1) % st.rpcUrls.length,
          rotateCalls := st.rotateCalls + 1 }
    ∧ ((∀ u ∈ st.rpcUrls, reachable u = false) →
        (rotateRpc reachable now st).2 = false
        ∧ (rotateRpc reachable now st).1.currentRpcIndex
            = (st.currentRpcIndex + 1) % st.rpcUrls.length)
    ∧ (∀ a rest, st.rpcUrls = a :: rest → reachable a = true →
        st.breaker.state a = .closed →
        (rotateRpc reachable now st).2 = true
        ∧ (rotateRpc reachable now st).1.currentRpcIndex = 0) := by
  refine ⟨rfl, ?_, ?_⟩
  · intro hall
    have hall' : ∀ p ∈ st.rpcUrls.enum, reachable p.2 = false := by
      intro p hp
      exact hall p.2 (snd_mem_enumFrom st.rpcUrls 0 hp)
    have h := connectLoop_all_fail reachable now st.rpcUrls.enum
      { st with
          currentRpcIndex := (st.currentRpcIndex + 1) % st.rpcUrls.length,
          rotateCalls := st.rotateCalls + 1 } hall'
    exact ⟨h.1, h.2⟩
  · intro a rest hurls hra hclosed
    have htest : (if reachable a then Except.ok () else Except.error () :
        Except Unit Unit) = Except.ok () := by simp [hra]
    have hok := call_closed_ok st.breaker a now hclosed
    constructor <;>
      · simp only [rotateRpc, connect, hurls, List.enum, List.enumFrom,
          connectLoop, htest]
        rcases hres : (st.breaker.call a now (Except.ok () : Except Unit Unit)).1
          with _ | _ | b | _ <;> simp_all

/-- C5 witness: both scenarios of the amended statement at the concrete
two-endpoint client. -/
theorem spec_c5_amended_witness :
    ((rotateRpc (fun _ => false) 0 c5Client).2 = false
      ∧ (rotateRpc (fun _ => false) 0 c5Client).1.currentRpcIndex
          = (c5Client.currentRpcIndex + 1) % c5Client.rpcUrls.length)
    ∧ ((rotateRpc (fun u => u == "a") 0 c5Client).2 = true
      ∧ (rotateRpc (fun u => u == "a") 0 c5Client).1.currentRpcIndex = 0) :=
  ⟨(spec_c5_amended (fun _ => false) 0 c5Client).2.1 (by intro u _; rfl),
   (spec_c5_amended (fun u => u == "a") 0 c5Client).2.2 "a" ["b"] rfl rfl rfl⟩

lemma rotate_preserves_funcCalls (reachable : String → Bool) (now : ℚ)
    (s : RpcClientState) :
    (rotateRpc reachable now s).1.funcCalls = s.funcCalls := by
  simp only [rotateRpc, connect]
  exact (connectLoop_preserves reachable now _ _).2.2.2.2.1

/-- Concrete client whose (only) endpoint has an OPEN breaker well within its
timeout (last failure at t = 100, consulted at t = 110 with timeout 60), and
a full rate limiter. -/
def c1Client : RpcClientState :=
  ⟨["a"], 0, 0, ⟨5, 60, fun _ => 5, fun _ => some 100, fun _ => .opened⟩,
   ⟨100, 60, 100, 110⟩, Metrics.init, 0, 0⟩

/-- C1 counterexample. At time 110 the breaker of the active endpoint `"a"`
is open within its timeout — consulting it would reject the call — yet
`_rpc_call`, after acquiring the rate-limiter token, invokes the underlying
operation directly (the ghost invocation counter increments) and returns its
result: the protected path never goes through `CircuitBreaker.call`, which is
used only by `_connect`. -/
theorem spec_c1_counterexample :
    (c1Client.breaker.call "a" 110 (Except.ok (42 : ℤ))).1 = .rejected
    ∧ (rpcCallAttempt (fun _ => false) 110 (fun _ => Except.ok (42 : ℤ)) c1Client).2
        = Except.ok 42
    ∧ (rpcCallAttempt (fun _ => false) 110 (fun _ => Except.ok (42 : ℤ))
        c1Client).1.funcCalls = 1 := by
  refine ⟨?_, ?_, ?_⟩
  · norm_num [CircuitBreaker.call, c1Client]
  · norm_num [rpcCallAttempt, RateLimiter.acquire, RateLimiter.refill, c1Client]
  · norm_num [rpcCallAttempt, RateLimiter.acquire, RateLimiter.refill, c1Client]

/-- C1 amended. On the cache-miss path, once the rate-limiter token is
acquired the underlying operation is invoked directly — not through the
Circuit Breaker — regardless of the breaker state of the active endpoint
(the breaker protects only connection establishment in `_connect`): the
invocation counter always increments, the call never fails with a
breaker-open error, and a successful operation returns its result. -/
theorem spec_c1_amended {α : Type} (reachable : String → Bool) (now : ℚ)
    (funcOut : ℕ → Except ErrKind α) (st : RpcClientState)
    (h : 1 ≤ st.limiter.refill (now - st.limiter.lastUpdate)) :
    (rpcCallAttempt reachable now funcOut st).1.funcCalls = st.funcCalls + 1
    ∧ (rpcCallAttempt reachable now funcOut st).2
        ≠ Except.error ErrKind.circuitBreakerOpenErr
    ∧ (∀ a, funcOut st.funcCalls = Except.ok a →
        (rpcCallAttempt reachable now funcOut st).2 = Except.ok a) := by
  have hacq : st.limiter.acquire now = (true,
      ⟨st.limiter.requests, st.limiter.window,
       st.limiter.refill (now - st.limiter.lastUpdate) - 1, now⟩) := by
    simp only [RateLimiter.acquire, if_pos h]
  cases hf : funcOut st.funcCalls with
  | ok a =>
      refine ⟨?_, ?_, ?_⟩
      · simp [rpcCallAttempt, hacq, hf]
      · simp [rpcCallAttempt, hacq, hf]
      · intro b hb
        injection hb with hab
        subst hab
        simp [rpcCallAttempt, hacq, hf]
  | error e =>
      refine ⟨?_, ?_, ?_⟩
      · simp only [rpcCallAttempt, hacq, hf, if_true]
        by_cases hc2 : 2 ≤ st.connectionAttempts
        · rw [if_pos hc2]
          split <;> simp [rotate_preserves_funcCalls]
        · rw [if_neg hc2]
      · simp [rpcCallAttempt, hacq, hf]
      · intro b hb
        exact absurd hb (by simp)

/-- C1 amended witness: the client with the open breaker from the
counterexample — the token is granted, the operation runs anyway and the call
does not fail breaker-open. -/
theorem spec_c1_amended_witness :
    (rpcCallAttempt (fun _ => false) 110 (fun _ => Except.ok (42 : ℤ))
        c1Client).1.funcCalls = c1Client.funcCalls + 1
    ∧ (rpcCallAttempt (fun _ => false) 110 (fun _ => Except.ok (42 : ℤ)) c1Client).2
        ≠ Except.error ErrKind.circuitBreakerOpenErr :=
  have h := spec_c1_amended (fun _ => false) 110 (fun _ => Except.ok (42 : ℤ))
    c1Client (by norm_num [RateLimiter.refill, c1Client])
  ⟨h.1, h.2.1⟩

/-- Number of `_rotate_rpc` invocations performed during `r` consecutive
failing `_rpc_call` attempts that start with `connection_attempts = ca` and
never reset the counter (rotation failing throughout): the attempts with
`ca + j ≥ 2` rotate. -/
def rotCount (ca r : ℕ) : ℕ := r - (2 - ca)

lemma rotCount_zero (ca : ℕ) : rotCount ca 0 = 0 := by
  unfold rotCount; omega

lemma rotCount_succ (ca r : ℕ) :
    rotCount ca (r + 1) = (if 2 ≤ ca then 1 else 0) + rotCount (ca + 1) r := by
  unfold rotCount
  split_ifs <;> omega

lemma rotate_false_char (now : ℚ) (s : RpcClientState) :
    (rotateRpc (fun _ => false) now s).2 = false
    ∧ (rotateRpc (fun _ => false) now s).1.connectionAttempts = s.connectionAttempts
    ∧ (rotateRpc (fun _ => false) now s).1.limiter = s.limiter
    ∧ (rotateRpc (fun _ => false) now s).1.funcCalls = s.funcCalls
    ∧ (rotateRpc (fun _ => false) now s).1.rotateCalls = s.rotateCalls + 1 := by
  have hfail := connectLoop_all_fail (fun _ => false) now (List.enum s.rpcUrls)
    { s with currentRpcIndex := (s.currentRpcIndex + 1) % s.rpcUrls.length,
             rotateCalls := s.rotateCalls + 1 } (fun p _ => rfl)
  have hpres := connectLoop_preserves (fun _ => false) now (List.enum s.rpcUrls)
    { s with currentRpcIndex := (s.currentRpcIndex + 1) % s.rpcUrls.length,
             rotateCalls := s.rotateCalls + 1 }
  exact ⟨hfail.1, hpres.2.1, hpres.2.2.1, hpres.2.2.2.2.1, hpres.2.2.2.2.2⟩

lemma rpcCallAttempt_fail_char {α : Type} (now : ℚ) (funcOut : ℕ → Except ErrKind α)
    (s : RpcClientState) (e : ErrKind) (hf : funcOut s.funcCalls = Except.error e)
    (hlu : s.limiter.lastUpdate = now) (htok : 1 ≤ s.limiter.tokens)
    (hcap : s.limiter.tokens ≤ (s.limiter.requests : ℚ)) :
    (rpcCallAttempt (fun _ => false) now funcOut s).2 = Except.error ErrKind.rpcError
    ∧ (rpcCallAttempt (fun _ => false) now funcOut s).1.limiter
        = ⟨s.limiter.requests, s.limiter.window, s.limiter.tokens - 1, now⟩
    ∧ (rpcCallAttempt (fun _ => false) now funcOut s).1.funcCalls = s.funcCalls + 1
    ∧ (rpcCallAttempt (fun _ => false) now funcOut s).1.connectionAttempts
        = s.connectionAttempts + 1
    ∧ (rpcCallAttempt (fun _ => false) now funcOut s).1.rotateCalls
        = s.rotateCalls + (if 2 ≤ s.connectionAttempts then 1 else 0) := by
  have hrefill : s.limiter.refill (now - s.limiter.lastUpdate) = s.limiter.tokens := by
    rw [hlu, sub_self]
    simp only [RateLimiter.refill, zero_div, zero_mul, add_zero]
    exact min_eq_right hcap
  have hacq : s.limiter.acquire now = (true,
      ⟨s.limiter.requests, s.limiter.window, s.limiter.tokens - 1, now⟩) := by
    simp only [RateLimiter.acquire, hrefill, if_pos htok]
  by_cases hc2 : 2 ≤ s.connectionAttempts
  · have hq := rotate_false_char now
      { s with limiter := ⟨s.limiter.requests, s.limiter.window,
                           s.limiter.tokens - 1, now⟩,
               funcCalls := s.funcCalls + 1 }
    refine ⟨?_, ?_, ?_, ?_, ?_⟩ <;>
      simp [rpcCallAttempt, hacq, hf, if_pos hc2, hq.1, hq.2.1, hq.2.2.1,
        hq.2.2.2.1, hq.2.2.2.2, hc2]
  · refine ⟨?_, ?_, ?_, ?_, ?_⟩ <;>
      simp [rpcCallAttempt, hacq, hf, hc2]

lemma rpcRunChar {α : Type} (maxRetries : ℕ) (b : ℚ) (now : ℚ)
    (funcOut : ℕ → Except ErrKind α) (st : RpcClientState)
    (hfail : ∀ i, ∃ ek, funcOut i = Except.error ek)
    (hmr : 1 ≤ maxRetries) (hlu : st.limiter.lastUpdate = now)
    (htok : (maxRetries : ℚ) ≤ st.limiter.tokens)
    (hcap : st.limiter.tokens ≤ (st.limiter.requests : ℚ)) :
    (rpcCallWith maxRetries b (fun _ => false) (fun _ => now) funcOut st).attempts
        = maxRetries
    ∧ (rpcCallWith maxRetries b (fun _ => false) (fun _ => now) funcOut st).result
        = Except.error (some ErrKind.rpcError)
    ∧ (rpcCallWith maxRetries b (fun _ => false) (fun _ => now) funcOut st).sleeps
        = (List.range (maxRetries - 1)).map (fun i => b ^ i)
    ∧ (rpcCallWith maxRetries b (fun _ => false) (fun _ => now) funcOut st).final.funcCalls
        = st.funcCalls + maxRetries
    ∧ (rpcCallWith maxRetries b (fun _ => false) (fun _ => now)
        funcOut st).final.connectionAttempts
        = st.connectionAttempts + maxRetries
    ∧ (rpcCallWith maxRetries b (fun _ => false) (fun _ => now) funcOut st).final.rotateCalls
        = st.rotateCalls + rotCount st.connectionAttempts maxRetries := by
  have hstep : ∀ r s,
      (s.limiter.lastUpdate = now
        ∧ s.limiter.requests = st.limiter.requests
        ∧ ((r + 1 : ℕ) : ℚ) ≤ s.limiter.tokens
        ∧ s.limiter.tokens ≤ (s.limiter.requests : ℚ)
        ∧ s.funcCalls + (r + 1) = st.funcCalls + maxRetries
        ∧ s.connectionAttempts + (r + 1) = st.connectionAttempts + maxRetries
        ∧ s.rotateCalls + rotCount s.connectionAttempts (r + 1)
            = st.rotateCalls + rotCount st.connectionAttempts maxRetries) →
      ((rpcCallAttempt (fun _ => false) now funcOut s).2
          = Except.error ErrKind.rpcError)
      ∧ ((rpcCallAttempt (fun _ => false) now funcOut s).1.limiter.lastUpdate = now
        ∧ (rpcCallAttempt (fun _ => false) now funcOut s).1.limiter.requests
            = st.limiter.requests
        ∧ ((r : ℕ) : ℚ) ≤ (rpcCallAttempt (fun _ => false) now funcOut s).1.limiter.tokens
        ∧ (rpcCallAttempt (fun _ => false) now funcOut s).1.limiter.tokens
            ≤ ((rpcCallAttempt (fun _ => false) now funcOut s).1.limiter.requests : ℚ)
        ∧ (rpcCallAttempt (fun _ => false) now funcOut s).1.funcCalls + r
            = st.funcCalls + maxRetries
        ∧ (rpcCallAttempt (fun _ => false) now funcOut s).1.connectionAttempts + r
            = st.connectionAttempts + maxRetries
        ∧ (rpcCallAttempt (fun _ => false) now funcOut s).1.rotateCalls
              + rotCount (rpcCallAttempt (fun _ => false) now funcOut s).1.connectionAttempts r
            = st.rotateCalls + rotCount st.connectionAttempts maxRetries) := by
    intro r s hP
    obtain ⟨h1, h2, h3, h4, h5, h6, h7⟩ := hP
    obtain ⟨ek, hek⟩ := hfail s.funcCalls
    have htok1 : 1 ≤ s.limiter.tokens := by
      refine le_trans ?_ h3
      push_cast
      linarith [Nat.cast_nonneg (α := ℚ) r]
    have hchar := rpcCallAttempt_fail_char now funcOut s ek hek h1 htok1 h4
    obtain ⟨hc1, hc2, hc3, hc4, hc5⟩ := hchar
    push_cast at h3
    refine ⟨hc1, ?_, ?_, ?_, ?_, ?_, ?_, ?_⟩
    · simp [hc2]
    · simp [hc2, h2]
    · simp only [hc2]
      linarith
    · simp only [hc2, h2]
      rw [h2] at h4
      linarith
    · rw [hc3]; omega
    · rw [hc4]; omega
    · rw [hc5, hc4]
      rw [rotCount_succ] at h7
      generalize (if 2 ≤ s.connectionAttempts then 1 else 0) = w at h7 ⊢
      omega
  have hrun := retryAux_fail b
    (fun s => rpcCallAttempt (fun _ => false) ((fun _ => now) s.funcCalls) funcOut s)
    ErrKind.rpcError rfl
    (fun r s =>
      s.limiter.lastUpdate = now
      ∧ s.limiter.requests = st.limiter.requests
      ∧ ((r : ℕ) : ℚ) ≤ s.limiter.tokens
      ∧ s.limiter.tokens ≤ (s.limiter.requests : ℚ)
      ∧ s.funcCalls + r = st.funcCalls + maxRetries
      ∧ s.connectionAttempts + r = st.connectionAttempts + maxRetries
      ∧ s.rotateCalls + rotCount s.connectionAttempts r
          = st.rotateCalls + rotCount st.connectionAttempts maxRetries)
    (fun r s hP => hstep r s hP)
    maxRetries 0 st none []
    ⟨hlu, rfl, by exact_mod_cast htok, hcap, by omega, by omega, rfl⟩
  obtain ⟨hres, hatt, hsl, hfin⟩ := hrun
  obtain ⟨_, _, _, _, hf5, hf6, hf7⟩ := hfin
  have hne : ¬ (maxRetries = 0) := by omega
  refine ⟨?_, ?_, ?_, ?_, ?_, ?_⟩
  · simpa [rpcCallWith, retryWithBackoff] using hatt
  · rw [show (rpcCallWith maxRetries b (fun _ => false) (fun _ => now) funcOut st).result
        = (retryAux b (fun s => rpcCallAttempt (fun _ => false)
            ((fun _ => now) s.funcCalls) funcOut s) maxRetries 0 st none []).result
        from rfl, hres]
    simp [hne]
  · rw [show (rpcCallWith maxRetries b (fun _ => false) (fun _ => now) funcOut st).sleeps
        = (retryAux b (fun s => rpcCallAttempt (fun _ => false)
            ((fun _ => now) s.funcCalls) funcOut s) maxRetries 0 st none []).sleeps
        from rfl, hsl]
    simp
  · have := hf5
    rw [rotCount_zero] at hf7
    simp only [Nat.add_zero] at this
    simpa [rpcCallWith, retryWithBackoff] using this
  · have := hf6
    simp only [Nat.add_zero] at this
    simpa [rpcCallWith, retryWithBackoff] using this
  · have := hf7
    rw [rotCount_zero] at this
    simp only [Nat.add_zero] at this
    simpa [rpcCallWith, retryWithBackoff] using this

/-- Concrete two-endpoint client with a full limiter (100 tokens), fresh
breaker, `connection_attempts = 0`, both endpoints unreachable. -/
def c2Client : RpcClientState :=
  ⟨["a", "b"], 0, 0, CircuitBreaker.init 5 60, ⟨100, 60, 100, 0⟩,
   Metrics.init, 0, 0⟩

/-- C2 counterexample. An operation that fails on every invocation with a
remote rejection (e.g. execution reverted), run through `_rpc_call` at the
configured retry parameters: the remote-rejected error is retried (3 attempts,
not 1), backoff sleeps of 1 s and 2 s are performed, the surfaced error is
the wrapping `RPCError` — not the original remote rejection — and
`_rotate_rpc` is entered once (on the third attempt, when
`connection_attempts` has reached 2), refuting all three prongs of the claim
(`surfaced as-is`, `never retried`, `never triggers rotation`). -/
theorem spec_c2_counterexample :
    (rpcCall (fun _ => false) (fun _ => 0)
        (fun _ => (Except.error ErrKind.remoteRejected : Except ErrKind Unit))
        c2Client).attempts = 3
    ∧ ¬ ((rpcCall (fun _ => false) (fun _ => 0)
        (fun _ => (Except.error ErrKind.remoteRejected : Except ErrKind Unit))
        c2Client).attempts = 1)
    ∧ (rpcCall (fun _ => false) (fun _ => 0)
        (fun _ => (Except.error ErrKind.remoteRejected : Except ErrKind Unit))
        c2Client).sleeps = [1, 2]
    ∧ (rpcCall (fun _ => false) (fun _ => 0)
        (fun _ => (Except.error ErrKind.remoteRejected : Except ErrKind Unit))
        c2Client).result = Except.error (some ErrKind.rpcError)
    ∧ ¬ ((rpcCall (fun _ => false) (fun _ => 0)
        (fun _ => (Except.error ErrKind.remoteRejected : Except ErrKind Unit))
        c2Client).result = Except.error (some ErrKind.remoteRejected))
    ∧ (rpcCall (fun _ => false) (fun _ => 0)
        (fun _ => (Except.error ErrKind.remoteRejected : Except ErrKind Unit))
        c2Client).final.rotateCalls = 1 := by
  have h := rpcRunChar 3 2 0
    (fun _ => (Except.error ErrKind.remoteRejected : Except ErrKind Unit))
    c2Client (fun i => ⟨ErrKind.remoteRejected, rfl⟩) (by norm_num) rfl
    (by norm_num [c2Client]) (by norm_num [c2Client])
  obtain ⟨h1, h2, h3, h4, h5, h6⟩ := h
  have hsl : (List.range (3 - 1)).map (fun i => (2 : ℚ) ^ i) = [1, 2] := by
    norm_num [List.range_succ]
  have he : rpcCall (fun _ => false) (fun _ => (0 : ℚ))
      (fun _ => (Except.error ErrKind.remoteRejected : Except ErrKind Unit)) c2Client
      = rpcCallWith 3 2 (fun _ => false) (fun _ => 0)
        (fun _ => (Except.error ErrKind.remoteRejected : Except ErrKind Unit))
        c2Client := rfl
  rw [he]
  refine ⟨h1, by rw [h1]; norm_num, ?_, h2, by rw [h2]; simp, ?_⟩
  · rw [h3, hsl]
  · rw [h6]
    norm_num [rotCount, c2Client]

/-- C2 amended. A remote-rejected failure inside `_rpc_call` is caught by the
blanket `except Exception` clause and re-raised as `RPCError`, which the retry
decorator treats as retryable: with sufficient rate-limiter tokens the
operation is re-invoked on every attempt (`maxRetries` total attempts, backoff
sleeps `backoffBase ^ i`), the error surfaced after the final attempt is the
`RPCError` wrapper rather than the original rejection, and `_rotate_rpc` is
triggered on every attempt for which `connection_attempts` has reached 2
(`rotCount` many times; with an endpoint cycle that stays unreachable the
counter is never reset). -/
theorem spec_c2_amended {α : Type} (maxRetries : ℕ) (b : ℚ) (now : ℚ)
    (funcOut : ℕ → Except ErrKind α) (st : RpcClientState)
    (hfail : ∀ i, funcOut i = Except.error ErrKind.remoteRejected)
    (hmr : 1 ≤ maxRetries) (hlu : st.limiter.lastUpdate = now)
    (htok : (maxRetries : ℚ) ≤ st.limiter.tokens)
    (hcap : st.limiter.tokens ≤ (st.limiter.requests : ℚ)) :
    (rpcCallWith maxRetries b (fun _ => false) (fun _ => now) funcOut st).attempts
        = maxRetries
    ∧ (rpcCallWith maxRetries b (fun _ => false) (fun _ => now) funcOut st).result
        = Except.error (some ErrKind.rpcError)
    ∧ (rpcCallWith maxRetries b (fun _ => false) (fun _ => now) funcOut st).sleeps
        = (List.range (maxRetries - 1)).map (fun i => b ^ i)
    ∧ (rpcCallWith maxRetries b (fun _ => false) (fun _ => now) funcOut st).final.funcCalls
        = st.funcCalls + maxRetries
    ∧ (rpcCallWith maxRetries b (fun _ => false) (fun _ => now) funcOut st).final.rotateCalls
        = st.rotateCalls + rotCount st.connectionAttempts maxRetries :=
  have h := rpcRunChar maxRetries b now funcOut st
    (fun i => ⟨ErrKind.remoteRejected, hfail i⟩) hmr hlu htok hcap
  ⟨h.1, h.2.1, h.2.2.1, h.2.2.2.1, h.2.2.2.2.2⟩

/-- C2 amended witness: the concrete client of the counterexample at
`maxRetries = 3`, `backoff = 2`. -/
theorem spec_c2_amended_witness :
    (rpcCallWith 3 2 (fun _ => false) (fun _ => (0 : ℚ))
        (fun _ => (Except.error ErrKind.remoteRejected : Except ErrKind Unit))
        c2Client).attempts = 3
    ∧ (rpcCallWith 3 2 (fun _ => false) (fun _ => (0 : ℚ))
        (fun _ => (Except.error ErrKind.remoteRejected : Except ErrKind Unit))
        c2Client).result = Except.error (some ErrKind.rpcError)
    ∧ (rpcCallWith 3 2 (fun _ => false) (fun _ => (0 : ℚ))
        (fun _ => (Except.error ErrKind.remoteRejected : Except ErrKind Unit))
        c2Client).final.rotateCalls
        = c2Client.rotateCalls + rotCount c2Client.connectionAttempts 3 :=
  have h := spec_c2_amended 3 2 0
    (fun _ => (Except.error ErrKind.remoteRejected : Except ErrKind Unit))
    c2Client (fun _ => rfl) (by norm_num) rfl
    (by norm_num [c2Client]) (by norm_num [c2Client])
  ⟨h.1, h.2.1, h.2.2.2.2⟩
